import Mathlib

/-!
Verification of the StreetEasy batch-ETL operator
(`street-easy/plugins/operators/extract_and_transform_streeteasy.py`).

The Python strings are embedded as lists of characters (`Str`), the
Python dict built per search as an association list (`Record`), and every
fallible Python expression (dict indexing, list indexing, `int(...)`) as
an `Except String` computation.  All definitions are structurally
recursive so that concrete inputs evaluate inside the kernel.
-/

namespace StreetEasy

/-- Decidable equality for `Except`, so that concrete runs of the
embedded fallible computations can be settled by `decide`. -/
instance instDecEqExcept [DecidableEq ε] [DecidableEq α] :
    DecidableEq (Except ε α) := fun x y =>
  match x, y with
  | .error a, .error b =>
    if h : a = b then isTrue (h ▸ rfl)
    else isFalse (fun hc => h (Except.error.inj hc))
  | .ok a, .ok b =>
    if h : a = b then isTrue (h ▸ rfl)
    else isFalse (fun hc => h (Except.ok.inj hc))
  | .error _, .ok _ => isFalse (fun hc => Except.noConfusion hc)
  | .ok _, .error _ => isFalse (fun hc => Except.noConfusion hc)

/-- A Python string, as its list of characters. -/
abbrev Str := List Char

/-- Characters of a Lean string literal. -/
def toL (s : String) : Str := s.data

/-- The `search_dict` built for one chunk: an association list to which
`search_dict[k] = v` assignments are appended; lookups take the most
recent binding, matching Python dict overwrite semantics. -/
abbrev Record := List (Str × Str)

/-- `d.get(k)` / `k in d` on the embedded dict: the most recently
inserted value for `k`, if any. -/
def dget (d : Record) (k : Str) : Option Str := List.lookup k d.reverse

/-- ASCII whitespace as matched by Python `\s` and stripped by
`str.strip()` / `int()`: space, tab, newline, carriage return, form
feed, vertical tab. -/
def isPySpace (c : Char) : Bool :=
  c = ' ' || c = '\t' || c = '\n' || c = '\r' || c = '\x0b' || c = '\x0c'

/-- Python `str.strip()` (ASCII inputs): drop leading and trailing
whitespace. -/
def pyStrip (s : Str) : Str :=
  (((s.dropWhile isPySpace).reverse).dropWhile isPySpace).reverse

/-- Tail of a Python integer-literal digit run: digits, with single
underscores allowed only between digits (`int("1_0")` is legal,
`int("1__0")` and `int("1_")` are not). -/
def digitsTail : Str → Bool
  | [] => true
  | '_' :: c :: rest => c.isDigit && digitsTail rest
  | c :: rest => c.isDigit && digitsTail rest

/-- Numeric value of a digit run (underscores already removed). -/
def digitsVal (s : Str) : Nat :=
  s.foldl (fun n c => 10 * n + (c.toNat - 48)) 0

/-- Python `int(s)` on an ASCII decimal string: strip whitespace, allow
one optional sign, then a digit run with optional single underscores
between digits; `none` models the `ValueError` raised otherwise. -/
def pyIntParse (s : Str) : Option Int :=
  let core : Str → Option Int := fun ds =>
    match ds with
    | [] => none
    | c :: rest =>
      if c.isDigit && digitsTail rest then
        some (Int.ofNat (digitsVal ((c :: rest).filter (fun ch => ch ≠ '_'))))
      else none
  match pyStrip s with
  | '+' :: r => core r
  | '-' :: r => (core r).map (fun n => -n)
  | r => core r

/-- `searches.split('\\n-')` (line 64): split on each occurrence of the
literal three characters backslash, `n`, dash, scanning left to right. -/
def splitBsnA : Str → Str → List Str
  | acc, '\\' :: 'n' :: '-' :: rest => acc.reverse :: splitBsnA [] rest
  | acc, c :: rest => splitBsnA (c :: acc) rest
  | acc, [] => [acc.reverse]

/-- Python `searches.split('\\n-')`. -/
def splitBsn (s : Str) : List Str := splitBsnA [] s

/-- Python `item.startswith('---')` (line 67). -/
def startsDashes : Str → Bool
  | '-' :: '-' :: '-' :: _ => true
  | _ => false

/-- `re.sub(r'(\\.n|\\.n\s+:|\\)', ' ', item)` (line 75).  At each
position the regex engine tries the alternatives in order: `\\.n`
(backslash, any character except a real newline, `n`), then
`\\.n\s+:` (unreachable, since its prefix is the first alternative),
then a lone backslash; the matched text is replaced by one space. -/
def sub1 : Str → Str
  | '\\' :: c :: 'n' :: rest =>
    if c = '\n' then ' ' :: sub1 (c :: 'n' :: rest) else ' ' :: sub1 rest
  | '\\' :: rest => ' ' :: sub1 rest
  | c :: rest => c :: sub1 rest
  | [] => []

/-- Worker for `re.sub(r'\s+:', ',', item)` (line 76): `pend` holds the
(reversed) run of whitespace read so far; a following `:` turns the run
and the colon into one comma, anything else flushes the run verbatim. -/
def sub2A : Str → Str → Str
  | pend, [] => pend.reverse
  | pend, c :: rest =>
    if isPySpace c then sub2A (c :: pend) rest
    else if c = ':' then
      (if pend = [] then ':' :: sub2A [] rest else ',' :: sub2A [] rest)
    else pend.reverse ++ (c :: sub2A [] rest)

/-- `re.sub(r'\s+:', ',', item)` (line 76): each maximal whitespace run
immediately followed by `:` is replaced, together with the colon, by a
single comma. -/
def sub2 (s : Str) : Str := sub2A [] s

/-- `item.split(',')` (line 77). -/
def splitCommaA : Str → Str → List Str
  | acc, ',' :: rest => acc.reverse :: splitCommaA [] rest
  | acc, c :: rest => splitCommaA (c :: acc) rest
  | acc, [] => [acc.reverse]

/-- Python `item.split(',')`. -/
def splitComma (s : Str) : List Str := splitCommaA [] s

/-- `key.split(':')` (lines 86, 88, 89). -/
def colonSplitA : Str → Str → List Str
  | acc, ':' :: rest => acc.reverse :: colonSplitA [] rest
  | acc, c :: rest => colonSplitA (c :: acc) rest
  | acc, [] => [acc.reverse]

/-- Python `key.split(':')`. -/
def colonSplit (s : Str) : List Str := colonSplitA [] s

/-- The six recognized field names (lines 86-87), in source order. -/
def recognizedKeys : List Str :=
  [toL "search_id", toL "enabled", toL "clicks",
   toL "type", toL "listings_sent", toL "recommended"]

/-- The field name `search_id`. -/
def keySearchId : Str := toL "search_id"

/-- The field name `enabled`. -/
def keyEnabled : Str := toL "enabled"

/-- The field name `clicks`. -/
def keyClicks : Str := toL "clicks"

/-- The field name `type`. -/
def keyType : Str := toL "type"

/-- The field name `listings_sent`. -/
def keyListings : Str := toL "listings_sent"

/-- The literal string `true` compared against `enabled` (line 91). -/
def valTrue : Str := toL "true"

/-- The literal string `Rental` (line 120). -/
def valRental : Str := toL "Rental"

/-- The literal string `Sale` (line 122). -/
def valSale : Str := toL "Sale"

/-- Message for the `KeyError` raised by `search_dict['enabled']`. -/
def errKey : String := "KeyError"

/-- Message for the `IndexError` raised by `key.split(':')[1]`. -/
def errIndex : String := "IndexError"

/-- Message for the `ValueError` raised by `int(...)`. -/
def errValue : String := "ValueError"

/-- Lines 85-90, one token: test `key.split(':')[0]` against the six
recognized names; on success store `key.split(':')[1].strip()` under
`key.split(':')[0]` (an `IndexError` if the split has one element),
otherwise leave the dict unchanged. -/
def addToken (d : Record) (t : Str) : Except String Record :=
  match colonSplit t with
  | [] => .ok d
  | k :: rest =>
    if k ∈ recognizedKeys then
      match rest with
      | [] => .error errIndex
      | v :: _ => .ok (d ++ [(k, pyStrip v)])
    else .ok d

/-- The `for key in item` loop of lines 85-90. -/
def buildDict (d : Record) : List Str → Except String Record
  | [] => .ok d
  | t :: ts =>
    match addToken d t with
    | .error e => .error e
    | .ok d2 => buildDict d2 ts

/-- Lines 91-92: `search_dict['enabled'] == 'true' and
int(search_dict.get('clicks', 0)) >= 3`.  Indexing a missing `enabled`
is a `KeyError`; the conjunction short-circuits, so `clicks` is only
converted when `enabled == 'true'`; a missing `clicks` contributes the
integer default `0`. -/
def recordValid (d : Record) : Except String Bool :=
  match dget d keyEnabled with
  | none => .error errKey
  | some e =>
    if e = valTrue then
      match dget d keyClicks with
      | none => .ok (decide ((3 : Int) ≤ 0))
      | some c =>
        match pyIntParse c with
        | none => .error errValue
        | some n => .ok (decide ((3 : Int) ≤ n))
    else .ok false

/-- The `for item in searches` loop of lines 82-95: build the dict for
each chunk's token list, test validity, and collect the valid dicts in
order. -/
def processAll : List (List Str) → Except String (List Record)
  | [] => .ok []
  | item :: rest =>
    match buildDict [] item with
    | .error e => .error e
    | .ok search_dict =>
      match recordValid search_dict with
      | .error e => .error e
      | .ok b =>
        match processAll rest with
        | .error e => .error e
        | .ok vs => .ok (if b then search_dict :: vs else vs)

/-- `valid_searches` (lines 54-95): split the raw cell on `\n-`, drop
chunks starting with `---`, return `[]` if none remain, otherwise apply
the two substitutions, split each chunk on commas, and keep the valid
records. -/
def valid_searches (searches : Str) : Except String (List Record) :=
  let s1 := splitBsn searches
  let s2 := s1.filter (fun item => !(startsDashes item))
  if s2.length = 0 then .ok []
  else
    let s3 := s2.filter (fun item => !(startsDashes item))
    let s4 := s3.map sub1
    let s5 := s4.map sub2
    let s6 := s5.map splitComma
    processAll s6

/-- The `clicks` number used by the validity test: the integer default
`0` when the field is absent, otherwise Python `int` of its value. -/
def clicksVal (d : Record) : Option Int :=
  match dget d keyClicks with
  | none => some 0
  | some c => pyIntParse c

/-- The chunk-to-token-lists part of the decoder, staged as in the
specification: split on `\n-`, drop `---` chunks, empty result when no
chunk remains, otherwise both substitutions then the comma split. -/
def tokenLists (raw : Str) : List (List Str) :=
  let cs := (splitBsn raw).filter (fun item => !(startsDashes item))
  if cs = [] then [] else cs.map (fun c => splitComma (sub2 (sub1 c)))

/-- `avg_listings_sent`'s accumulation loop (lines 98-103): a record
contributes only when `item.get('listings_sent')` is truthy, i.e. the
field is present with a non-empty value; `int` of a malformed value is
a `ValueError`. -/
def avgLoop : Int → Int → List Record → Except String (Int × Int)
  | num, lis, [] => .ok (num, lis)
  | num, lis, item :: rest =>
    match dget item keyListings with
    | some v =>
      if v = [] then avgLoop num lis rest
      else
        match pyIntParse v with
        | some k => avgLoop (num + 1) (lis + k) rest
        | none => .error errValue
    | none => avgLoop num lis rest

/-- Round-half-to-even of the fraction `p / q` (`q > 0`), on integers. -/
def halfEvenDiv (p q : Int) : Int :=
  let d := Int.ediv p q
  let r := Int.emod p q
  if 2 * r < q then d
  else if q < 2 * r then d + 1
  else if Int.emod d 2 = 0 then d else d + 1

/-- `np.round(listings / num_listings, 2)` modelled exactly over the
rationals and represented as an integer count of hundredths:
`npRound2 l n = 100 * (l / n rounded half-to-even to 2 decimals)`. -/
def npRound2 (l n : Int) : Int := halfEvenDiv (100 * l) n

/-- `avg_listings_sent` (lines 97-108), the result in hundredths: the
rounded mean when at least one record contributed, the integer `0`
otherwise. -/
def avg_listings_sent (valid : List Record) : Except String Int :=
  match avgLoop 0 0 valid with
  | .error e => .error e
  | .ok (num, lis) =>
    if 0 < num then .ok (npRound2 lis num) else .ok 0

/-- One step of the counting loop of lines 117-125. -/
def typeStep (p : Nat × Nat) (d : Record) : Nat × Nat :=
  if dget d keyType = some valRental then (p.1 + 1, p.2)
  else if dget d keyType = some valSale then (p.1, p.2 + 1)
  else p

/-- `type_of_search` (lines 110-134): count records whose `type` is
exactly `Rental` and exactly `Sale`, then classify. -/
def type_of_search (valid : List Record) : String :=
  let counts := valid.foldl typeStep (0, 0)
  if 0 < counts.1 ∧ 0 < counts.2 then "rental_and_sale"
  else if 0 < counts.1 then "rental"
  else if 0 < counts.2 then "sale"
  else "none"

/-- `list_of_valid_searches` (lines 136-147): append
`item.get('search_id')` for each record where that value is truthy,
i.e. present and non-empty. -/
def list_of_valid_searches (valid : List Record) : List Str :=
  valid.foldl
    (fun acc item =>
      match dget item keySearchId with
      | some v => if v = [] then acc else acc ++ [v]
      | none => acc)
    []

/-- One decoded input row: user id, raw blob, decoded valid searches. -/
abbrev RowD := Str × (Str × List Record)

/-- Cached instance (the default search exceeds its size limit). -/
instance : DecidableEq RowD := instDecidableEqProd

/-- `data['valid_searches'] = data['searches'].apply(...)` (line 177):
decode every row, any per-row exception aborting the run. -/
def decodeRows : List (Str × Str) → Except String (List RowD)
  | [] => .ok []
  | (u, b) :: rs =>
    match valid_searches b with
    | .error e => .error e
    | .ok vs =>
      match decodeRows rs with
      | .error e => .error e
      | .ok ds => .ok ((u, (b, vs)) :: ds)

/-- Lines 180-183: keep exactly the rows with `num_valid_searches > 0`. -/
def keptRows (input : List (Str × Str)) : Except String (List RowD) :=
  match decodeRows input with
  | .error e => .error e
  | .ok ds => .ok (ds.filter (fun r => 0 < r.2.2.length))

/-- Map a fallible function over a list, first failure aborting, as a
pandas `apply` of a raising function does. -/
def mapExcept (f : α → Except String β) : List α → Except String (List β)
  | [] => .ok []
  | x :: xs =>
    match f x with
    | .error e => .error e
    | .ok y =>
      match mapExcept f xs with
      | .error e => .error e
      | .ok ys => .ok (y :: ys)

/-- One summary row (lines 180-195): user id, `num_valid_searches`,
`avg_listings` (hundredths), `type_of_search`, `list_of_valid_searches`. -/
abbrev Summary := Str × Nat × Int × String × List Str

/-- Cached instance (the default search exceeds its size limit). -/
instance : DecidableEq Summary := instDecidableEqProd

/-- Compute the derived columns of one retained row. -/
def mkSummary (r : RowD) : Except String Summary :=
  match avg_listings_sent r.2.2 with
  | .error e => .error e
  | .ok a =>
    .ok (r.1, r.2.2.length, a, type_of_search r.2.2,
         list_of_valid_searches r.2.2)

/-- The per-user summary table built by `execute` (lines 174-198). -/
def summaryTable (input : List (Str × Str)) : Except String (List Summary) :=
  match keptRows input with
  | .error e => .error e
  | .ok kept => mapExcept mkSummary kept

/-- The single-quote character stripped by `re.sub(r'\'', '', item)`. -/
def quoteChar : Char := Char.ofNat 39

/-- `re.sub(r'\'', '', item)` (line 204): drop every single quote. -/
def stripQuotes (s : Str) : Str := s.filter (fun c => c ≠ quoteChar)

/-- `set.add` (line 204) on the insertion-ordered model of the set. -/
def addUnique (acc : List Str) (x : Str) : List Str :=
  if x ∈ acc then acc else acc ++ [x]

/-- The nested loop of lines 201-204 building the unique set of
quote-stripped search ids, in insertion order. -/
def uniqueFold (kept : List RowD) : List Str :=
  kept.foldl
    (fun acc r =>
      (list_of_valid_searches r.2.2).foldl
        (fun a i => addUnique a (stripQuotes i)) acc)
    []

/-- The unique-search table of `execute` (lines 200-207); the summary
columns are computed first (lines 189-195), so their failures abort
before the set is built. -/
def uniqueTable (input : List (Str × Str)) : Except String (List Str) :=
  match keptRows input with
  | .error e => .error e
  | .ok kept =>
    match mapExcept mkSummary kept with
    | .error e => .error e
    | .ok _ => .ok (uniqueFold kept)

/-! Definitions following the specification's wording, for comparison
with the definitions translated from the source. -/

/-- Split a token at its first `:`, if any: the part before and the
whole part after. -/
def splitFirstColonA : Str → Str → Option (Str × Str)
  | _, [] => none
  | acc, ':' :: rest => some (acc.reverse, rest)
  | acc, c :: rest => splitFirstColonA (c :: acc) rest

/-- Split a token at its first colon. -/
def splitFirstColon (s : Str) : Option (Str × Str) := splitFirstColonA [] s

/-- Token handling as the specification words it: "split on the first
`:`; if the key (trimmed) is one of the six recognized field names,
store `{key: value.strip()}`", the value being everything after the
first colon; unrecognized keys silently ignored. -/
def addTokenSpec (d : Record) (t : Str) : Record :=
  match splitFirstColon t with
  | none => d
  | some (k, v) =>
    if pyStrip k ∈ recognizedKeys then d ++ [(pyStrip k, pyStrip v)] else d

/-- The first substitution as the specification words it: replace the
LITERAL three-character sequence backslash-dot-`n` (or that sequence
followed by whitespace and `:`, which the leading alternative makes
unreachable), or a lone backslash, with a single space. -/
def sub1Spec : Str → Str
  | '\\' :: '.' :: 'n' :: rest => ' ' :: sub1Spec rest
  | '\\' :: rest => ' ' :: sub1Spec rest
  | c :: rest => c :: sub1Spec rest
  | [] => []

/-- The decoder's chunk-to-token-lists stage as the specification words
it, i.e. with the literal reading of `\.n` in the first substitution. -/
def tokenListsSpec (raw : Str) : List (List Str) :=
  let cs := (splitBsn raw).filter (fun item => !(startsDashes item))
  if cs = [] then [] else cs.map (fun c => splitComma (sub2 (sub1Spec c)))

/-- `avg_listings` accumulation as the specification words it: every
valid search POSSESSING a `listings_sent` field contributes, its value
converted by Python `int` (so an empty value is a conversion error
rather than a skipped record). -/
def avgLoopSpec : Int → Int → List Record → Except String (Int × Int)
  | num, lis, [] => .ok (num, lis)
  | num, lis, item :: rest =>
    match dget item keyListings with
    | some v =>
      match pyIntParse v with
      | some k => avgLoopSpec (num + 1) (lis + k) rest
      | none => .error errValue
    | none => avgLoopSpec num lis rest

/-- `avg_listings` as the specification words it (result in hundredths,
like `avg_listings_sent`). -/
def avgListingsSpec (valid : List Record) : Except String Int :=
  match avgLoopSpec 0 0 valid with
  | .error e => .error e
  | .ok (num, lis) =>
    if 0 < num then .ok (npRound2 lis num) else .ok 0

/-- `list_of_valid_searches` as the specification words it: the
`search_id` of every valid search that HAS that field, in order
(so an empty-string id is kept rather than skipped). -/
def listIdsSpec (valid : List Record) : List Str :=
  valid.filterMap (fun d => dget d keySearchId)

/-! Declarative views of the loops, used to state the claims. -/

/-- The `listings_sent` contribution of one record: its parsed value
when the field is present with a non-empty value, `none` otherwise. -/
def lsVal (d : Record) : Option Int :=
  match dget d keyListings with
  | some v => if v = [] then none else pyIntParse v
  | none => none

/-- A record does not make `avg_listings_sent` raise: its
`listings_sent`, when present and non-empty, parses as an integer. -/
def lsOk (d : Record) : Bool :=
  match dget d keyListings with
  | some v => if v = [] then true else (pyIntParse v).isSome
  | none => true

/-- The `search_id` contribution of one record to
`list_of_valid_searches`: the value when present and non-empty. -/
def sidVal (d : Record) : Option Str :=
  match dget d keySearchId with
  | some v => if v = [] then none else some v
  | none => none

/-- Number of records whose `type` is exactly `Rental`. -/
def rentalCount (vs : List Record) : Nat :=
  (vs.filter (fun d => dget d keyType = some valRental)).length

/-- Number of records whose `type` is exactly `Sale`. -/
def saleCount (vs : List Record) : Nat :=
  (vs.filter (fun d => dget d keyType = some valSale)).length

/-! ### Helper lemmas -/

/-- Filtering twice with the same predicate filters once. -/
theorem filter_idem (p : α → Bool) (l : List α) :
    (l.filter p).filter p = l.filter p := by
  induction l with
  | nil => rfl
  | cons a t ih => cases hpa : p a <;> simp [List.filter_cons, hpa, ih]

/-- The monolithic `valid_searches` is the staged decoder followed by
the validity loop. -/
theorem valid_searches_eq (raw : Str) :
    valid_searches raw = processAll (tokenLists raw) := by
  unfold valid_searches tokenLists
  by_cases h : (splitBsn raw).filter (fun item => !(startsDashes item)) = []
  · simp [h, processAll]
  · have hlen : ¬((splitBsn raw).filter (fun item => !(startsDashes item))).length = 0 := by
      simpa [List.length_eq_zero] using h
    simp only [h, hlen, if_false, filter_idem, List.map_map]
    rfl

/-- Every record returned by the validity loop passed the validity
test. -/
theorem processAll_mem :
    ∀ items vs, processAll items = .ok vs →
      ∀ d, d ∈ vs → recordValid d = .ok true := by
  intro items
  induction items with
  | nil =>
    intro vs h d hd
    simp [processAll] at h
    subst h
    simp at hd
  | cons item rest ih =>
    intro vs h d hd
    unfold processAll at h
    cases hb : buildDict [] item with
    | error e => rw [hb] at h; exact absurd h (by simp)
    | ok sd =>
      rw [hb] at h
      simp only at h
      cases hv : recordValid sd with
      | error e => rw [hv] at h; exact absurd h (by simp)
      | ok b =>
        rw [hv] at h
        simp only at h
        cases hr : processAll rest with
        | error e => rw [hr] at h; exact absurd h (by simp)
        | ok vs2 =>
          rw [hr] at h
          simp only at h
          cases b with
          | true =>
            simp at h
            subst h
            rcases List.mem_cons.mp hd with rfl | hd2
            · exact hv
            · exact ih vs2 hr d hd2
          | false =>
            simp at h
            subst h
            exact ih vs2 hr d hd

/-- The validity test succeeds with `true` exactly on records whose
`enabled` is the string `true` and whose clicks number (0 when the
field is absent) is at least 3. -/
theorem recordValid_true_iff (d : Record) :
    recordValid d = .ok true ↔
      (dget d keyEnabled = some valTrue ∧
        ∃ n : Int, clicksVal d = some n ∧ 3 ≤ n) := by
  unfold recordValid clicksVal
  cases he : dget d keyEnabled with
  | none => simp
  | some e =>
    by_cases ht : e = valTrue
    · subst ht
      simp only [if_pos rfl]
      cases hc : dget d keyClicks with
      | none => simp
      | some c =>
        cases hp : pyIntParse c with
        | none => simp [hp]
        | some n => simp [hp]
    · simp [ht]

/-- A record with no `enabled` field makes the validity test raise. -/
theorem recordValid_missing (d : Record) (h : dget d keyEnabled = none) :
    recordValid d = .error errKey := by
  unfold recordValid
  rw [h]

/-- When every contributing `listings_sent` parses, the accumulation
loop returns the declarative count and sum. -/
theorem avgLoop_eq :
    ∀ (vs : List Record), (∀ d ∈ vs, lsOk d = true) →
      ∀ num lis : Int,
        avgLoop num lis vs =
          .ok (num + ((vs.filterMap lsVal).length : Int),
               lis + (vs.filterMap lsVal).sum) := by
  intro vs
  induction vs with
  | nil => intro _ num lis; simp [avgLoop]
  | cons d rest ih =>
    intro hp num lis
    have hpd : lsOk d = true := hp d (List.mem_cons_self d rest)
    have hprest : ∀ x ∈ rest, lsOk x = true :=
      fun x hx => hp x (List.mem_cons_of_mem d hx)
    unfold avgLoop
    cases hg : dget d keyListings with
    | none =>
      have hv : lsVal d = none := by simp [lsVal, hg]
      rw [ih hprest num lis]
      simp [List.filterMap_cons, hv]
    | some v =>
      by_cases hve : v = []
      · subst hve
        have hv : lsVal d = none := by simp [lsVal, hg]
        simp only [if_pos rfl]
        rw [ih hprest num lis]
        simp [List.filterMap_cons, hv]
      · have hsome : (pyIntParse v).isSome := by
          have := hpd
          simp [lsOk, hg, hve] at this
          exact this
        rcases Option.isSome_iff_exists.mp hsome with ⟨k, hk⟩
        have hv : lsVal d = some k := by simp [lsVal, hg, hve, hk]
        simp only [if_neg hve]
        rw [hk]
        simp only
        rw [ih hprest (num + 1) (lis + k)]
        simp [List.filterMap_cons, hv]
        constructor
        · ring
        · ring

/-- The counting loop of `type_of_search` computes the two declarative
counts. -/
theorem typeFold_eq :
    ∀ (vs : List Record) (p : Nat × Nat),
      vs.foldl typeStep p = (p.1 + rentalCount vs, p.2 + saleCount vs) := by
  intro vs
  induction vs with
  | nil => intro p; simp [rentalCount, saleCount]
  | cons d rest ih =>
    intro p
    have hRS : valRental ≠ valSale := by decide
    rw [List.foldl_cons, ih]
    by_cases hr : dget d keyType = some valRental
    · have hs : ¬(dget d keyType = some valSale) := by
        rw [hr]; intro hcon
        exact hRS (Option.some.inj hcon)
      simp [typeStep, rentalCount, saleCount, List.filter_cons, hr, hs, hRS, hRS.symm]
      omega
    · by_cases hs : dget d keyType = some valSale
      · simp [typeStep, rentalCount, saleCount, List.filter_cons, hr, hs, hRS, hRS.symm]
        omega
      · simp [typeStep, rentalCount, saleCount, List.filter_cons, hr, hs]

/-- The appending loop of `list_of_valid_searches` is a `filterMap`. -/
theorem listFold_eq :
    ∀ (vs : List Record) (acc : List Str),
      vs.foldl
        (fun acc item =>
          match dget item keySearchId with
          | some v => if v = [] then acc else acc ++ [v]
          | none => acc)
        acc = acc ++ vs.filterMap sidVal := by
  intro vs
  induction vs with
  | nil => intro acc; simp
  | cons d rest ih =>
    intro acc
    rw [List.foldl_cons]
    cases hg : dget d keySearchId with
    | none =>
      have hv : sidVal d = none := by simp [sidVal, hg]
      simp [List.filterMap_cons, hv, ih]
    | some v =>
      by_cases hve : v = []
      · subst hve
        have hv : sidVal d = none := by simp [sidVal, hg]
        simp [List.filterMap_cons, hv, ih]
      · have hv : sidVal d = some v := by simp [sidVal, hg, hve]
        simp [List.filterMap_cons, hv, hve, ih]

/-- Every decoded row pairs a blob with exactly its decode result. -/
theorem decodeRows_sound :
    ∀ input ds, decodeRows input = .ok ds →
      ∀ r, r ∈ ds → valid_searches r.2.1 = .ok r.2.2 := by
  intro input
  induction input with
  | nil =>
    intro ds h r hr
    simp [decodeRows] at h
    subst h
    simp at hr
  | cons row rs ih =>
    intro ds h r hr
    obtain ⟨u, b⟩ := row
    unfold decodeRows at h
    cases hv : valid_searches b with
    | error e => rw [hv] at h; exact absurd h (by simp)
    | ok vs =>
      rw [hv] at h
      simp only at h
      cases hd : decodeRows rs with
      | error e => rw [hd] at h; exact absurd h (by simp)
      | ok ds2 =>
        rw [hd] at h
        simp only [Except.ok.injEq] at h
        subst h
        rcases List.mem_cons.mp hr with rfl | hr2
        · exact hv
        · exact ih ds2 hd r hr2

/-- Rows retained by the `num_valid_searches > 0` filter decode to their
non-empty record list. -/
theorem keptRows_sound :
    ∀ input kept, keptRows input = .ok kept →
      ∀ r, r ∈ kept →
        valid_searches r.2.1 = .ok r.2.2 ∧ 0 < r.2.2.length := by
  intro input kept h r hr
  unfold keptRows at h
  cases hd : decodeRows input with
  | error e => rw [hd] at h; exact absurd h (by simp)
  | ok ds =>
    rw [hd] at h
    simp only [Except.ok.injEq] at h
    subst h
    have := List.mem_filter.mp hr
    exact ⟨decodeRows_sound input ds hd r this.1, by simpa using this.2⟩

/-- Every output of a successful `mapExcept` comes from an input. -/
theorem mapExcept_ok_mem {f : α → Except String β} :
    ∀ l bs, mapExcept f l = .ok bs →
      ∀ b, b ∈ bs → ∃ a, a ∈ l ∧ f a = .ok b := by
  intro l
  induction l with
  | nil =>
    intro bs h b hb
    simp [mapExcept] at h
    subst h
    simp at hb
  | cons x xs ih =>
    intro bs h b hb
    unfold mapExcept at h
    cases hf : f x with
    | error e => rw [hf] at h; exact absurd h (by simp)
    | ok y =>
      rw [hf] at h
      simp only at h
      cases hm : mapExcept f xs with
      | error e => rw [hm] at h; exact absurd h (by simp)
      | ok ys =>
        rw [hm] at h
        simp only [Except.ok.injEq] at h
        subst h
        rcases List.mem_cons.mp hb with rfl | hb2
        · exact ⟨x, List.mem_cons_self x xs, hf⟩
        · rcases ih ys hm b hb2 with ⟨a, ha, hfa⟩
          exact ⟨a, List.mem_cons_of_mem x ha, hfa⟩

/-- Membership in the insertion-ordered set model. -/
theorem mem_addUnique (acc : List Str) (x y : Str) :
    y ∈ addUnique acc x ↔ (y ∈ acc ∨ y = x) := by
  unfold addUnique
  by_cases h : x ∈ acc
  · simp only [if_pos h]
    constructor
    · exact Or.inl
    · rintro (hy | rfl)
      · exact hy
      · exact h
  · simp [if_neg h]

/-- Inserting into the set model preserves distinctness. -/
theorem nodup_addUnique (acc : List Str) (x : Str) (h : acc.Nodup) :
    (addUnique acc x).Nodup := by
  unfold addUnique
  by_cases hx : x ∈ acc
  · simpa [hx]
  · simpa [hx] using List.Nodup.append h (List.nodup_singleton x)
      (by simpa using hx)

/-- Membership after folding one row's ids into the set model. -/
theorem mem_innerFold :
    ∀ (ids : List Str) (acc : List Str) (y : Str),
      y ∈ ids.foldl (fun a i => addUnique a (stripQuotes i)) acc ↔
        (y ∈ acc ∨ ∃ i, i ∈ ids ∧ y = stripQuotes i) := by
  intro ids
  induction ids with
  | nil => intro acc y; simp
  | cons i rest ih =>
    intro acc y
    rw [List.foldl_cons, ih, mem_addUnique]
    constructor
    · rintro ((hy | rfl) | ⟨j, hj, rfl⟩)
      · exact Or.inl hy
      · exact Or.inr ⟨i, List.mem_cons_self i rest, rfl⟩
      · exact Or.inr ⟨j, List.mem_cons_of_mem i hj, rfl⟩
    · rintro (hy | ⟨j, hj, rfl⟩)
      · exact Or.inl (Or.inl hy)
      · rcases List.mem_cons.mp hj with rfl | hj2
        · exact Or.inl (Or.inr rfl)
        · exact Or.inr ⟨j, hj2, rfl⟩

/-- Folding one row's ids into the set model keeps it duplicate-free. -/
theorem nodup_innerFold :
    ∀ (ids : List Str) (acc : List Str), acc.Nodup →
      (ids.foldl (fun a i => addUnique a (stripQuotes i)) acc).Nodup := by
  intro ids
  induction ids with
  | nil => intro acc h; simpa
  | cons i rest ih =>
    intro acc h
    rw [List.foldl_cons]
    exact ih _ (nodup_addUnique acc (stripQuotes i) h)

/-- Membership after folding all rows into the set model. -/
theorem mem_outerFold :
    ∀ (rows : List RowD) (acc : List Str) (y : Str),
      y ∈ rows.foldl
          (fun acc r =>
            (list_of_valid_searches r.2.2).foldl
              (fun a i => addUnique a (stripQuotes i)) acc)
          acc ↔
        (y ∈ acc ∨
          ∃ r, r ∈ rows ∧ ∃ i, i ∈ list_of_valid_searches r.2.2 ∧
            y = stripQuotes i) := by
  intro rows
  induction rows with
  | nil => intro acc y; simp
  | cons r rest ih =>
    intro acc y
    rw [List.foldl_cons, ih, mem_innerFold]
    constructor
    · rintro ((hy | ⟨i, hi, rfl⟩) | ⟨r2, hr2, i, hi, rfl⟩)
      · exact Or.inl hy
      · exact Or.inr ⟨r, List.mem_cons_self r rest, i, hi, rfl⟩
      · exact Or.inr ⟨r2, List.mem_cons_of_mem r hr2, i, hi, rfl⟩
    · rintro (hy | ⟨r2, hr2, i, hi, rfl⟩)
      · exact Or.inl (Or.inl hy)
      · rcases List.mem_cons.mp hr2 with rfl | hr3
        · exact Or.inl (Or.inr ⟨i, hi, rfl⟩)
        · exact Or.inr ⟨r2, hr3, i, hi, rfl⟩

/-- The whole unique-set fold is duplicate-free. -/
theorem nodup_outerFold :
    ∀ (rows : List RowD) (acc : List Str), acc.Nodup →
      (rows.foldl
          (fun acc r =>
            (list_of_valid_searches r.2.2).foldl
              (fun a i => addUnique a (stripQuotes i)) acc)
          acc).Nodup := by
  intro rows
  induction rows with
  | nil => intro acc h; simpa
  | cons r rest ih =>
    intro acc h
    rw [List.foldl_cons]
    exact ih _ (nodup_innerFold _ acc h)

/-- A maximal whitespace run followed by a colon becomes one comma. -/
theorem sub2A_space_run :
    ∀ (ws : Str) (pend : Str) (s : Str),
      (∀ c ∈ ws, isPySpace c = true) →
        sub2A pend (ws ++ ':' :: s) =
          (if ws = [] ∧ pend = [] then ':' :: sub2A [] s
           else ',' :: sub2A [] s) := by
  intro ws
  induction ws with
  | nil =>
    intro pend s _
    show sub2A pend (':' :: s) = _
    conv_lhs => unfold sub2A
    rw [if_neg (by decide : ¬(isPySpace ':' = true))]
    rw [if_pos (rfl : (':' : Char) = ':')]
    by_cases hp : pend = []
    · rw [if_pos hp, if_pos (by simp [hp])]
    · rw [if_neg hp, if_neg (by simp [hp])]
  | cons w ws ih =>
    intro pend s h
    have hw : isPySpace w = true := h w (List.mem_cons_self w ws)
    have hrest : ∀ c ∈ ws, isPySpace c = true :=
      fun c hc => h c (List.mem_cons_of_mem w hc)
    show sub2A pend (w :: (ws ++ ':' :: s)) = _
    conv_lhs => unfold sub2A
    rw [if_pos hw, ih (w :: pend) s hrest]
    rw [if_neg (by simp : ¬(ws = [] ∧ w :: pend = []))]
    rw [if_neg (by simp : ¬(w :: ws = [] ∧ pend = []))]
/-! ### Claim theorems -/

/-- C1: the validity filter keeps a record if and only if its `enabled`
field equals the string `true` and the integer value of its `clicks`
field (0 when absent) is at least 3; every record in the list returned
by `valid_searches` satisfies the filter. -/
theorem C1_validity_filter :
    (∀ d : Record,
        recordValid d = .ok true ↔
          (dget d keyEnabled = some valTrue ∧
            ∃ n : Int, clicksVal d = some n ∧ 3 ≤ n)) ∧
    (∀ raw vs, valid_searches raw = .ok vs →
        ∀ d, d ∈ vs → recordValid d = .ok true) := by
  constructor
  · exact recordValid_true_iff
  · intro raw vs h d hd
    rw [valid_searches_eq] at h
    exact processAll_mem _ _ h d hd

/-- Witness for C1: a concrete raw blob decoding to one record, which
therefore passes the validity filter. -/
theorem C1_validity_filter_w :
    recordValid [(keyEnabled, valTrue), (keyClicks, toL "5"),
      (keySearchId, toL "42")] = .ok true :=
  C1_validity_filter.2 (toL "enabled:true,clicks:5,search_id:42")
    [[(keyEnabled, valTrue), (keyClicks, toL "5"), (keySearchId, toL "42")]]
    (by decide)
    [(keyEnabled, valTrue), (keyClicks, toL "5"), (keySearchId, toL "42")]
    (by decide)

/-- C2: a decoded record lacking the `enabled` field makes the validity
classification raise, and the error aborts the whole per-row decode
rather than skipping the record. -/
theorem C2_missing_enabled_fatal :
    ∀ d : Record, dget d keyEnabled = none →
      recordValid d = .error errKey ∧
      (∀ toks rest, buildDict [] toks = .ok d →
          processAll (toks :: rest) = .error errKey) := by
  intro d h
  refine ⟨recordValid_missing d h, ?_⟩
  intro toks rest hb
  unfold processAll
  rw [hb]
  simp only
  rw [recordValid_missing d h]

/-- Witness for C2: a chunk with only a `clicks` field. -/
theorem C2_missing_enabled_fatal_w :
    recordValid [(keyClicks, toL "5")] = .error errKey ∧
    processAll [[toL "clicks:5"]] = .error errKey :=
  ⟨(C2_missing_enabled_fatal [(keyClicks, toL "5")] (by decide)).1,
   (C2_missing_enabled_fatal [(keyClicks, toL "5")] (by decide)).2
     [toL "clicks:5"] [] (by decide)⟩

/-- C3 counterexample: on the token `search_id:a:b` the source stores
only the text between the first and second colon (`a`), not everything
after the first colon (`a:b`) as the claim states. -/
theorem C3_cx :
    addToken [] (toL "search_id:a:b") ≠
      .ok (addTokenSpec [] (toL "search_id:a:b")) ∧
    addToken [] (toL "search_id:a:b") = .ok [(keySearchId, toL "a")] ∧
    addTokenSpec [] (toL "search_id:a:b") = [(keySearchId, toL "a:b")] := by
  decide

/-- C3 amended: each token is split on every colon; when the first
piece, taken verbatim (not trimmed), is one of the six recognized
names, the record stores it mapped to the stripped second piece (the
text between the first and second colon); a token whose first piece is
unrecognized is silently ignored; a recognized first piece with no
colon is an `IndexError`. -/
theorem C3_token_amended :
    ∀ (d : Record) (t : Str),
      (∀ k v rest, colonSplit t = k :: v :: rest → k ∈ recognizedKeys →
          addToken d t = .ok (d ++ [(k, pyStrip v)])) ∧
      (∀ k rest, colonSplit t = k :: rest → k ∉ recognizedKeys →
          addToken d t = .ok d) ∧
      (∀ k, colonSplit t = [k] → k ∈ recognizedKeys →
          addToken d t = .error errIndex) := by
  intro d t
  refine ⟨?_, ?_, ?_⟩
  · intro k v rest hs hk
    unfold addToken
    rw [hs]
    simp [hk]
  · intro k rest hs hk
    unfold addToken
    rw [hs]
    simp [hk]
  · intro k hs hk
    unfold addToken
    rw [hs]
    simp [hk]

/-- Witness for C3 amended: the token `enabled:true`. -/
theorem C3_token_amended_w :
    addToken [] (toL "enabled:true") = .ok [(keyEnabled, valTrue)] :=
  Eq.trans
    ((C3_token_amended [] (toL "enabled:true")).1 (toL "enabled") (toL "true")
      [] (by decide) (by decide))
    (by decide)

/-- C4 counterexample: a valid search whose `listings_sent` is present
with an empty value is skipped by the source's truthiness test
(`if item.get('listings_sent')`), while under the claim's reading
("possessing a `listings_sent` field") it contributes and the run fails
on `int('')`; the two disagree on a concrete record list. -/
theorem C4_cx :
    recordValid [(keyEnabled, valTrue), (keyClicks, toL "3"),
      (keyListings, ([] : Str))] = .ok true ∧
    avg_listings_sent
      [[(keyEnabled, valTrue), (keyClicks, toL "3"), (keyListings, toL "30")],
       [(keyEnabled, valTrue), (keyClicks, toL "3"), (keyListings, ([] : Str))]] =
      .ok 3000 ∧
    avgListingsSpec
      [[(keyEnabled, valTrue), (keyClicks, toL "3"), (keyListings, toL "30")],
       [(keyEnabled, valTrue), (keyClicks, toL "3"), (keyListings, ([] : Str))]] =
      .error errValue ∧
    avg_listings_sent
      [[(keyEnabled, valTrue), (keyClicks, toL "3"), (keyListings, toL "30")],
       [(keyEnabled, valTrue), (keyClicks, toL "3"), (keyListings, ([] : Str))]] ≠
    avgListingsSpec
      [[(keyEnabled, valTrue), (keyClicks, toL "3"), (keyListings, toL "30")],
       [(keyEnabled, valTrue), (keyClicks, toL "3"), (keyListings, ([] : Str))]] := by
  decide

/-- C4 amended: over valid searches whose `listings_sent` is present
with a non-empty value (all of which parse), `avg_listings_sent` is the
sum of the parsed values divided by their count, rounded half-to-even
to two decimal places (the result represented exactly, in hundredths),
and exactly 0 when no search contributes. -/
theorem C4_avg_amended :
    ∀ vs : List Record, (∀ d ∈ vs, lsOk d = true) →
      avg_listings_sent vs =
        (if vs.filterMap lsVal = [] then .ok 0
         else .ok (npRound2 ((vs.filterMap lsVal).sum)
             ((vs.filterMap lsVal).length))) := by
  intro vs hp
  unfold avg_listings_sent
  rw [avgLoop_eq vs hp 0 0]
  simp only
  by_cases h : vs.filterMap lsVal = []
  · rw [if_pos h, if_neg (by simp [h] : ¬(0 : Int) < 0 + ((vs.filterMap lsVal).length : Int))]
  · have hlen : 0 < (vs.filterMap lsVal).length := List.length_pos.mpr h
    rw [if_neg h, if_pos (by exact_mod_cast by simpa using hlen)]
    simp

/-- Witness for C4 amended: `listings_sent` values 10 and 20 average to
15.00 (1500 hundredths). -/
theorem C4_avg_amended_w :
    avg_listings_sent
      [[(keyEnabled, valTrue), (keyClicks, toL "4"), (keyListings, toL "10")],
       [(keyEnabled, valTrue), (keyClicks, toL "4"), (keyListings, toL "20")]] =
      .ok 1500 :=
  Eq.trans
    (C4_avg_amended
      [[(keyEnabled, valTrue), (keyClicks, toL "4"), (keyListings, toL "10")],
       [(keyEnabled, valTrue), (keyClicks, toL "4"), (keyListings, toL "20")]]
      (by decide))
    (by decide)

/-- C5: `type_of_search` counts records with `type` exactly `Rental`
and exactly `Sale` (anything else counts toward neither) and classifies
`rental_and_sale` / `rental` / `sale` / `none` by which counts are
positive. -/
theorem C5_type_classification :
    ∀ vs : List Record,
      type_of_search vs =
        (if 0 < rentalCount vs ∧ 0 < saleCount vs then "rental_and_sale"
         else if 0 < rentalCount vs then "rental"
         else if 0 < saleCount vs then "sale"
         else "none") := by
  intro vs
  unfold type_of_search
  rw [typeFold_eq vs (0, 0)]
  simp

/-- C10: decoding is not total: a chunk containing a token that is
exactly a recognized field name with no colon makes the field
extraction index past the end of the split, so the decode of that raw
blob fails. -/
theorem C10_decode_failure :
    valid_searches (toL "clicks") = .error errIndex := by decide

/-- C6: a user row whose blob decodes to zero valid searches is absent
from the retained rows (hence from the summary table, all of whose rows
have a positive count), and a blob whose chunk list is empty decodes to
the empty list rather than an error. -/
theorem C6_zero_valid_excluded :
    ∀ input kept, keptRows input = .ok kept →
      (∀ u b, (u, b) ∈ input → valid_searches b = .ok [] →
          ∀ r, r ∈ kept → ¬(r.1 = u ∧ r.2.1 = b)) ∧
      (∀ ss, summaryTable input = .ok ss → ∀ s, s ∈ ss → 0 < s.2.1) ∧
      (∀ blob, (splitBsn blob).filter (fun item => !(startsDashes item)) = [] →
          valid_searches blob = .ok []) := by
  intro input kept hk
  refine ⟨?_, ?_, ?_⟩
  · rintro u b _ hb r hr ⟨h1, h2⟩
    obtain ⟨hv, hlen⟩ := keptRows_sound input kept hk r hr
    rw [h2, hb] at hv
    have hnil : r.2.2 = [] := (Except.ok.inj hv).symm
    rw [hnil] at hlen
    exact absurd hlen (by simp)
  · intro ss hss s hs
    unfold summaryTable at hss
    rw [hk] at hss
    simp only at hss
    rcases mapExcept_ok_mem kept ss hss s hs with ⟨r, hr, hmk⟩
    unfold mkSummary at hmk
    cases ha : avg_listings_sent r.2.2 with
    | error e => rw [ha] at hmk; exact absurd hmk (by simp)
    | ok a =>
      rw [ha] at hmk
      simp only [Except.ok.injEq] at hmk
      rw [← hmk]
      simpa using (keptRows_sound input kept hk r hr).2
  · intro blob hb
    simp [valid_searches, hb]

/-- Witness for C6: a two-row input whose second row decodes to no
records and is excluded. -/
theorem C6_zero_valid_excluded_w :
    ¬(((toL "u1", (toL "enabled:true,clicks:5",
        [[(keyEnabled, valTrue), (keyClicks, toL "5")]])) : RowD).1 = toL "u2" ∧
      ((toL "u1", (toL "enabled:true,clicks:5",
        [[(keyEnabled, valTrue), (keyClicks, toL "5")]])) : RowD).2.1 = toL "---x") ∧
    valid_searches (toL "---x") = .ok [] := by
  have H := C6_zero_valid_excluded
    [(toL "u1", toL "enabled:true,clicks:5"), (toL "u2", toL "---x")]
    [(toL "u1", (toL "enabled:true,clicks:5",
      [[(keyEnabled, valTrue), (keyClicks, toL "5")]]))]
    (by decide)
  exact ⟨H.1 (toL "u2") (toL "---x") (by decide) (by decide)
      (toL "u1", (toL "enabled:true,clicks:5",
        [[(keyEnabled, valTrue), (keyClicks, toL "5")]])) (by decide),
    H.2.2 (toL "---x") (by decide)⟩

/-- C7: the unique-search table holds exactly the quote-stripped
`search_id` values of the retained rows' `list_of_valid_searches`,
without duplicates. -/
theorem C7_unique_ids :
    ∀ input kept t, keptRows input = .ok kept → uniqueTable input = .ok t →
      t.Nodup ∧
      ∀ x, (x ∈ t ↔
        ∃ r, r ∈ kept ∧ ∃ i, i ∈ list_of_valid_searches r.2.2 ∧
          x = stripQuotes i) := by
  intro input kept t hk hu
  unfold uniqueTable at hu
  rw [hk] at hu
  simp only at hu
  cases hm : mapExcept mkSummary kept with
  | error e => rw [hm] at hu; exact absurd hu (by simp)
  | ok ys =>
    rw [hm] at hu
    simp only [Except.ok.injEq] at hu
    rw [← hu]
    unfold uniqueFold
    refine ⟨nodup_outerFold kept [] List.nodup_nil, ?_⟩
    intro x
    rw [mem_outerFold kept [] x]
    simp

/-- Witness for C7: one retained row whose single id `abc'123` is
stored quote-stripped as `abc123`. -/
theorem C7_unique_ids_w :
    ([toL "abc123"] : List Str).Nodup ∧
    toL "abc123" ∈ ([toL "abc123"] : List Str) := by
  have H := C7_unique_ids
    [(toL "u", toL "search_id:abc" ++ quoteChar :: toL "123,enabled:true,clicks:5")]
    [(toL "u", (toL "search_id:abc" ++ quoteChar :: toL "123,enabled:true,clicks:5",
      [[(keySearchId, toL "abc" ++ quoteChar :: toL "123"),
        (keyEnabled, valTrue), (keyClicks, toL "5")]]))]
    [toL "abc123"] (by decide) (by decide)
  refine ⟨H.1, (H.2 (toL "abc123")).mpr ?_⟩
  exact ⟨(toL "u", (toL "search_id:abc" ++ quoteChar :: toL "123,enabled:true,clicks:5",
      [[(keySearchId, toL "abc" ++ quoteChar :: toL "123"),
        (keyEnabled, valTrue), (keyClicks, toL "5")]])),
    by decide, toL "abc" ++ quoteChar :: toL "123", by decide, by decide⟩

/-- C8 counterexample: the first substitution's `.` is a regex
wildcard, not a literal dot: on the raw string backslash-`a`-`n` the
source collapses the three characters to one space, while the claim's
literal reading of `\.n` only replaces the lone backslash. -/
theorem C8_cx :
    tokenLists (toL "\\an") ≠ tokenListsSpec (toL "\\an") ∧
    tokenLists (toL "\\an") = [[[' ']]] ∧
    tokenListsSpec (toL "\\an") = [[' ' :: toL "an"]] := by
  decide

/-- C8 amended: `valid_searches` is the staged decoder (split on
backslash-`n`-dash, drop `---` chunks, empty when none remain, the two
substitutions, comma split) followed by the validity loop, where the
first substitution replaces a backslash followed by ANY character other
than a real newline and then `n` — or a lone backslash — with one
space, and the second replaces each maximal whitespace run followed by
a colon with one comma. -/
theorem C8_decoder_amended :
    (∀ raw, valid_searches raw = processAll (tokenLists raw)) ∧
    (∀ (c : Char) (s : Str), c ≠ '\n' →
        sub1 ('\\' :: c :: 'n' :: s) = ' ' :: sub1 s) ∧
    (∀ s : Str,
        sub1 ('\\' :: '\n' :: 'n' :: s) = ' ' :: sub1 ('\n' :: 'n' :: s)) ∧
    (∀ (ws : Str) (s : Str), ws ≠ [] → (∀ c ∈ ws, isPySpace c = true) →
        sub2 (ws ++ ':' :: s) = ',' :: sub2 s) := by
  refine ⟨valid_searches_eq, ?_, ?_, ?_⟩
  · intro c s hc
    show (if c = '\n' then ' ' :: sub1 (c :: 'n' :: s) else ' ' :: sub1 s) =
      ' ' :: sub1 s
    rw [if_neg hc]
  · intro s
    show (if ('\n' : Char) = '\n' then ' ' :: sub1 ('\n' :: 'n' :: s)
        else ' ' :: sub1 s) = ' ' :: sub1 ('\n' :: 'n' :: s)
    rw [if_pos rfl]
  · intro ws s hne hsp
    unfold sub2
    rw [sub2A_space_run ws [] s hsp]
    rw [if_neg (by simp [hne] : ¬(ws = [] ∧ ([] : Str) = []))]

/-- Witness for C8 amended at concrete inputs. -/
theorem C8_decoder_amended_w :
    valid_searches (toL "x") = processAll (tokenLists (toL "x")) ∧
    sub1 ('\\' :: 'a' :: 'n' :: ([] : Str)) = ' ' :: sub1 ([] : Str) ∧
    sub2 ([' '] ++ ':' :: toL "x") = ',' :: sub2 (toL "x") :=
  ⟨C8_decoder_amended.1 (toL "x"),
   C8_decoder_amended.2.1 'a' [] (by decide),
   C8_decoder_amended.2.2.2 [' '] (toL "x") (by decide) (by decide)⟩

/-- C9 counterexample: a valid search whose `search_id` is present but
empty is skipped by the source's truthiness test
(`if item.get('search_id')`), while the claim keeps every search that
has the field. -/
theorem C9_cx :
    recordValid [(keyEnabled, valTrue), (keyClicks, toL "5"),
      (keySearchId, ([] : Str))] = .ok true ∧
    list_of_valid_searches
      [[(keyEnabled, valTrue), (keyClicks, toL "5"), (keySearchId, ([] : Str))]] = [] ∧
    listIdsSpec
      [[(keyEnabled, valTrue), (keyClicks, toL "5"), (keySearchId, ([] : Str))]] =
      [([] : Str)] ∧
    list_of_valid_searches
      [[(keyEnabled, valTrue), (keyClicks, toL "5"), (keySearchId, ([] : Str))]] ≠
    listIdsSpec
      [[(keyEnabled, valTrue), (keyClicks, toL "5"), (keySearchId, ([] : Str))]] := by
  decide

/-- C9 amended: `list_of_valid_searches` returns, in discovery order,
the `search_id` of exactly those searches whose `search_id` is present
AND non-empty; others are skipped with no placeholder. -/
theorem C9_ids_amended :
    ∀ vs : List Record, list_of_valid_searches vs = vs.filterMap sidVal := by
  intro vs
  unfold list_of_valid_searches
  rw [listFold_eq vs []]
  simp

end StreetEasy
